import Mathlib

/-!
Verification of the sensorbee streaming-dataflow core against its
natural-language specification. The Lean definitions below are shallow
embeddings of the Go source:

* `Operator`, `Expression` and their methods embed `bql/parser/ast.go`;
* `pipeSenderWrite` and `dataDestinationsWrite` embed `core/pipe.go`;
* `convertGenericAggregate` and `GenericFunc.Accept` embed the reflective
  UDF bridge (`udf` package);
* `ParseStmt` embeds the panic-trapping parser wrapper (`parser` package).

Machine integers are modelled as `Int`/`Nat` (no overflow is relevant to the
properties below), Go maps used as string sets are modelled as `List String`,
Go channels as `List Tuple`, and fallible Go code as `Except`/`Option`.
-/

namespace SensorBee

/-! ## Operators (bql/parser/ast.go) -/

/-- BQL operators, in the declaration (iota) order of `ast.go`:
`UnknownOperator, Or, And, Not, Equal, Less, LessOrEqual, Greater,
GreaterOrEqual, NotEqual, Concat, Is, IsNot, Plus, Minus, Multiply,
Divide, Modulo, UnaryMinus`. -/
inductive Operator where
  | unknownOperator
  | opOr
  | opAnd
  | opNot
  | equal
  | less
  | lessOrEqual
  | greater
  | greaterOrEqual
  | notEqual
  | concat
  | opIs
  | opIsNot
  | plus
  | minus
  | multiply
  | divide
  | modulo
  | unaryMinus
deriving DecidableEq, Repr, Fintype

/-- The numeric (iota) value of an operator; Go's `Operator` is an `int` and
`hasSamePrecedenceAs` / `hasHigherPrecedenceThan` compare these values. -/
def Operator.val : Operator → Nat
  | .unknownOperator => 0
  | .opOr => 1
  | .opAnd => 2
  | .opNot => 3
  | .equal => 4
  | .less => 5
  | .lessOrEqual => 6
  | .greater => 7
  | .greaterOrEqual => 8
  | .notEqual => 9
  | .concat => 10
  | .opIs => 11
  | .opIsNot => 12
  | .plus => 13
  | .minus => 14
  | .multiply => 15
  | .divide => 16
  | .modulo => 17
  | .unaryMinus => 18

/-- `Operator.hasSamePrecedenceAs` from `ast.go`: both operators lie in one of
the ranges `[Or, Not]`, `[Less, GreaterOrEqual]`, `[Is, IsNot]`,
`[Plus, Minus]`, `[Multiply, Modulo]`. -/
def Operator.hasSamePrecedenceAs (op rhs : Operator) : Bool :=
  (Operator.opOr.val ≤ op.val && op.val ≤ Operator.opNot.val &&
   Operator.opOr.val ≤ rhs.val && rhs.val ≤ Operator.opNot.val) ||
  (Operator.less.val ≤ op.val && op.val ≤ Operator.greaterOrEqual.val &&
   Operator.less.val ≤ rhs.val && rhs.val ≤ Operator.greaterOrEqual.val) ||
  (Operator.opIs.val ≤ op.val && op.val ≤ Operator.opIsNot.val &&
   Operator.opIs.val ≤ rhs.val && rhs.val ≤ Operator.opIsNot.val) ||
  (Operator.plus.val ≤ op.val && op.val ≤ Operator.minus.val &&
   Operator.plus.val ≤ rhs.val && rhs.val ≤ Operator.minus.val) ||
  (Operator.multiply.val ≤ op.val && op.val ≤ Operator.modulo.val &&
   Operator.multiply.val ≤ rhs.val && rhs.val ≤ Operator.modulo.val)

/-- `Operator.hasHigherPrecedenceThan` from `ast.go`: `false` when the two
operators have the same precedence, otherwise the numeric comparison. -/
def Operator.hasHigherPrecedenceThan (op rhs : Operator) : Bool :=
  if op.hasSamePrecedenceAs rhs then false
  else op.val > rhs.val

/-- The operators in the order listed by the specification (low → high):
OR, AND, NOT, =, <, <=, >, >=, !=, || (concat), IS, IS NOT, +, -, *, /, %,
unary minus. -/
def specPrecedenceList : List Operator :=
  [.opOr, .opAnd, .opNot, .equal, .less, .lessOrEqual, .greater,
   .greaterOrEqual, .notEqual, .concat, .opIs, .opIsNot, .plus, .minus,
   .multiply, .divide, .modulo, .unaryMinus]

/-- Index of the equal-precedence group an operator belongs to, groups ordered
by increasing precedence. The non-singleton groups are exactly the ranges of
`hasSamePrecedenceAs`: `{OR, AND, NOT}`, `{<, <=, >, >=}`, `{IS, IS NOT}`,
`{+, -}`, `{*, /, %}`. -/
def Operator.precGroup : Operator → Nat
  | .unknownOperator => 0
  | .opOr => 1
  | .opAnd => 1
  | .opNot => 1
  | .equal => 2
  | .less => 3
  | .lessOrEqual => 3
  | .greater => 3
  | .greaterOrEqual => 3
  | .notEqual => 4
  | .concat => 5
  | .opIs => 6
  | .opIsNot => 6
  | .plus => 7
  | .minus => 7
  | .multiply => 8
  | .divide => 8
  | .modulo => 8
  | .unaryMinus => 9

/-! ## Expression AST (bql/parser/ast.go) -/

/-- `BinaryKeyword` from `ast.go` (`UnspecifiedKeyword, Yes, No`). -/
inductive BinaryKeyword where
  | unspecifiedKeyword
  | yes
  | no
deriving DecidableEq, Repr

/-- `MetaInformation` from `ast.go` (`UnknownMeta, TimestampMeta, NowMeta`). -/
inductive MetaInformation where
  | unknownMeta
  | timestampMeta
  | nowMeta
deriving DecidableEq, Repr

/-- `Type` from `ast.go` (cast targets). -/
inductive CastType where
  | unknownType
  | tyBool
  | tyInt
  | tyFloat
  | tyString
  | tyBlob
  | tyTimestamp
  | tyArray
  | tyMap
deriving DecidableEq, Repr

/-- Bit pattern of a Go `float64` literal. The AST methods verified here never
inspect the numeric value, so the payload is kept as raw bits. -/
structure FloatBits where
  bits : Nat
deriving DecidableEq, Repr

/-- The BQL expression AST: one constructor per Go type implementing the
`Expression` interface in `ast.go`. `funcApp` keeps its `ORDER BY` entries as
`(expression, ascending)` pairs mirroring `[]SortedExpressionAST`; `mapAST`
entries mirror `[]KeyValuePairAST`; the `CASE` forms keep their
`[]WhenThenPairAST` as `(when, then)` pairs and the `ELSE` branch as an
`Option` (a possibly-nil `Expression` in Go). -/
inductive Expression where
  | aliasAST (expr : Expression) (aliasName : String)
  | binaryOp (op : Operator) (left right : Expression)
  | unaryOp (op : Operator) (expr : Expression)
  | typeCast (expr : Expression) (target : CastType)
  | funcApp (function : String) (expressions : List Expression)
      (ordering : List (Expression × BinaryKeyword))
  | sortedExpression (expr : Expression) (ascending : BinaryKeyword)
  | arrayAST (expressions : List Expression)
  | mapAST (entries : List (String × Expression))
  | conditionCase (checks : List (Expression × Expression)) (elseExpr : Option Expression)
  | expressionCase (expr : Expression) (checks : List (Expression × Expression))
      (elseExpr : Option Expression)
  | wildcard (relation : String)
  | rowValue (relation column : String)
  | rowMeta (relation : String) (metaType : MetaInformation)
  | numericLiteral (value : Int)
  | floatLiteral (value : FloatBits)
  | nullLiteral
  | missing
  | boolLiteral (value : Bool)
  | stringLiteral (value : String)

/-- `RenameReferencedRelation(from, to)` from `ast.go`: replaces every
referenced relation equal to `from` by `to`, structurally recursing through
all composite nodes and leaving literals untouched. -/
def Expression.RenameReferencedRelation (frm tgt : String) : Expression → Expression
  | .aliasAST e a => .aliasAST (e.RenameReferencedRelation frm tgt) a
  | .binaryOp op l r =>
      .binaryOp op (l.RenameReferencedRelation frm tgt) (r.RenameReferencedRelation frm tgt)
  | .unaryOp op e => .unaryOp op (e.RenameReferencedRelation frm tgt)
  | .typeCast e t => .typeCast (e.RenameReferencedRelation frm tgt) t
  | .funcApp f es ord =>
      .funcApp f (es.attach.map fun ex => ex.1.RenameReferencedRelation frm tgt)
        (ord.attach.map fun p => (p.1.1.RenameReferencedRelation frm tgt, p.1.2))
  | .sortedExpression e k => .sortedExpression (e.RenameReferencedRelation frm tgt) k
  | .arrayAST es => .arrayAST (es.attach.map fun ex => ex.1.RenameReferencedRelation frm tgt)
  | .mapAST entries =>
      .mapAST (entries.attach.map fun p => (p.1.1, p.1.2.RenameReferencedRelation frm tgt))
  | .conditionCase checks els =>
      .conditionCase
        (checks.attach.map fun p =>
          (p.1.1.RenameReferencedRelation frm tgt, p.1.2.RenameReferencedRelation frm tgt))
        (match els with
         | some e => some (e.RenameReferencedRelation frm tgt)
         | none => none)
  | .expressionCase e checks els =>
      .expressionCase (e.RenameReferencedRelation frm tgt)
        (checks.attach.map fun p =>
          (p.1.1.RenameReferencedRelation frm tgt, p.1.2.RenameReferencedRelation frm tgt))
        (match els with
         | some e' => some (e'.RenameReferencedRelation frm tgt)
         | none => none)
  | .wildcard rel => if rel = frm then .wildcard tgt else .wildcard rel
  | .rowValue rel col => if rel = frm then .rowValue tgt col else .rowValue rel col
  | .rowMeta rel m => if rel = frm then .rowMeta tgt m else .rowMeta rel m
  | .numericLiteral v => .numericLiteral v
  | .floatLiteral v => .floatLiteral v
  | .nullLiteral => .nullLiteral
  | .missing => .missing
  | .boolLiteral b => .boolLiteral b
  | .stringLiteral s => .stringLiteral s
termination_by e => sizeOf e
decreasing_by
  all_goals simp_wf
  all_goals
    first
      | omega
      | (rcases ex with ⟨x, hmem⟩
         have h := List.sizeOf_lt_of_mem hmem
         simp at h ⊢
         omega)
      | (rcases p with ⟨⟨x1, x2⟩, hmem⟩
         have h := List.sizeOf_lt_of_mem hmem
         simp at h ⊢
         omega)


/-- `ReferencedRelations` from `ast.go`. The Go methods return a
`map[string]bool` used as a set (`nil` for literals); the embedding returns the
list of referenced relation names (possibly with duplicates; only membership
matters). A `Wildcard` with an empty relation references nothing, while
`RowValue`/`RowMeta` always reference their relation, even when it is `""`. -/
def Expression.ReferencedRelations : Expression → List String
  | .aliasAST e _ => e.ReferencedRelations
  | .binaryOp _ l r => l.ReferencedRelations ++ r.ReferencedRelations
  | .unaryOp _ e => e.ReferencedRelations
  | .typeCast e _ => e.ReferencedRelations
  | .funcApp _ es ord =>
      (es.attach.map fun ex => ex.1.ReferencedRelations).flatten ++
        (ord.attach.map fun p => p.1.1.ReferencedRelations).flatten
  | .sortedExpression e _ => e.ReferencedRelations
  | .arrayAST es => (es.attach.map fun ex => ex.1.ReferencedRelations).flatten
  | .mapAST entries => (entries.attach.map fun p => p.1.2.ReferencedRelations).flatten
  | .conditionCase checks els =>
      (checks.attach.map fun p =>
        p.1.1.ReferencedRelations ++ p.1.2.ReferencedRelations).flatten ++
        (match els with
         | some e => e.ReferencedRelations
         | none => [])
  | .expressionCase e checks els =>
      e.ReferencedRelations ++
        (checks.attach.map fun p =>
          p.1.1.ReferencedRelations ++ p.1.2.ReferencedRelations).flatten ++
        (match els with
         | some e' => e'.ReferencedRelations
         | none => [])
  | .wildcard rel => if rel = "" then [] else [rel]
  | .rowValue rel _ => [rel]
  | .rowMeta rel _ => [rel]
  | .numericLiteral _ => []
  | .floatLiteral _ => []
  | .nullLiteral => []
  | .missing => []
  | .boolLiteral _ => []
  | .stringLiteral _ => []
termination_by e => sizeOf e
decreasing_by
  all_goals simp_wf
  all_goals
    first
      | omega
      | (rcases ex with ⟨x, hmem⟩
         have h := List.sizeOf_lt_of_mem hmem
         simp at h ⊢
         omega)
      | (rcases p with ⟨⟨x1, x2⟩, hmem⟩
         have h := List.sizeOf_lt_of_mem hmem
         simp at h ⊢
         omega)


/-- `Foldable` from `ast.go`: literals are foldable; operators, casts, aliases
and collections are foldable when their children are; `now()` with no
arguments, calls with an `ORDER BY` clause, wildcards, row values and row
metadata are not. -/
def Expression.Foldable : Expression → Bool
  | .aliasAST e _ => e.Foldable
  | .binaryOp _ l r => l.Foldable && r.Foldable
  | .unaryOp _ e => e.Foldable
  | .typeCast e _ => e.Foldable
  | .funcApp f es ord =>
      if f = "now" && es.isEmpty then false
      else if ord.length > 0 then false
      else es.attach.all fun ex => ex.1.Foldable
  | .sortedExpression e _ => e.Foldable
  | .arrayAST es => es.attach.all fun ex => ex.1.Foldable
  | .mapAST entries => entries.attach.all fun p => p.1.2.Foldable
  | .conditionCase checks els =>
      (checks.attach.all fun p => p.1.1.Foldable && p.1.2.Foldable) &&
        (match els with
         | some e => e.Foldable
         | none => true)
  | .expressionCase e checks els =>
      e.Foldable &&
        ((checks.attach.all fun p => p.1.1.Foldable && p.1.2.Foldable) &&
          (match els with
           | some e' => e'.Foldable
           | none => true))
  | .wildcard _ => false
  | .rowValue _ _ => false
  | .rowMeta _ _ => false
  | .numericLiteral _ => true
  | .floatLiteral _ => true
  | .nullLiteral => true
  | .missing => true
  | .boolLiteral _ => true
  | .stringLiteral _ => true
termination_by e => sizeOf e
decreasing_by
  all_goals simp_wf
  all_goals
    first
      | omega
      | (rcases ex with ⟨x, hmem⟩
         have h := List.sizeOf_lt_of_mem hmem
         simp at h ⊢
         omega)
      | (rcases p with ⟨⟨x1, x2⟩, hmem⟩
         have h := List.sizeOf_lt_of_mem hmem
         simp at h ⊢
         omega)


/-! ## Pipe fabric (core/pipe.go) -/

/-- Modelled from the spec: the tuple header's `flags` bitset (`core/tuple.go`
is not under `src/`). Only the `shared` bit (`TFShared`) is relevant to the
pipe fabric; `IsSet(TFShared)` reads it and `Set(TFShared)` sets it. -/
structure TupleFlags where
  shared : Bool
deriving DecidableEq, Repr

/-- Modelled from the spec: a tuple is a value object with a `data` mapping,
an `input_name` naming the edge it arrived on, and a `flags` bitset
(`core/tuple.go` is not under `src/`). Header fields not read by the pipe
fabric (timestamps, trace, batch id) are collapsed into the opaque `data`
payload. -/
structure Tuple where
  inputName : String
  flags : TupleFlags
  data : List (String × String)
deriving DecidableEq, Repr

/-- Modelled from the spec: `Tuple.ShallowCopy` (`core/tuple.go`, not under
`src/`) returns a fresh tuple object whose fields equal the original's, with
the `data` mapping shared rather than deep-copied; the original tuple is not
modified. In this value-level embedding the copy is field-for-field equal to
the source tuple. -/
def Tuple.ShallowCopy (t : Tuple) : Tuple := t

/-- `QueueDropMode` from `core/pipe.go`. -/
inductive QueueDropMode where
  | dropNone
  | dropLatest
  | dropOldest
deriving DecidableEq, Repr

/-- The distinguished sentinel returned when writing to a closed pipe
(`errPipeClosed` in the `core` package). -/
inductive PipeError where
  | errPipeClosed
deriving DecidableEq, Repr

/-- The state of a `pipeSender` from `core/pipe.go`: the written-tuple counter
`cnt`, the receiver-side edge name `inputName`, the bounded channel `out`
(modelled as its queued contents, oldest first, plus its capacity), the drop
mode and the closed flag. -/
structure PipeSenderState where
  cnt : Int
  inputName : String
  queue : List Tuple
  capacity : Nat
  dropMode : QueueDropMode
  closed : Bool
deriving DecidableEq, Repr

/-- The observable outcome of one `pipeSender.write` call: the sender state
afterwards, the returned error, the state of the caller's tuple object after
the call (`write` mutates `in.InputName` in place when the tuple is not
shared), the tuples passed to the `droppedTuple` callback in order, and
whether the call blocks (a full queue in `DropNone` mode, or an empty full
channel in `DropOldest` mode with capacity 0, blocks the goroutine). -/
structure WriteOutcome where
  state : PipeSenderState
  err : Option PipeError
  finalInput : Tuple
  dropped : List Tuple
  blocks : Bool
deriving DecidableEq, Repr

/-- The `DropOldest` retry loop of `pipeSender.write`: while the channel is
full, receive (and report as dropped) the oldest queued tuple, then try the
send again. Sequentially, each iteration frees one slot; with capacity 0 the
loop never succeeds and the goroutine spins (modelled as blocking). -/
def dropOldestLoop (s : PipeSenderState) (t : Tuple) (acc : List Tuple) :
    WriteOutcome :=
  if s.queue.length < s.capacity then
    { state := { s with queue := s.queue ++ [t], cnt := s.cnt + 1 },
      err := none, finalInput := t, dropped := acc, blocks := false }
  else
    match hq : s.queue with
    | [] =>
        { state := s, err := none, finalInput := t, dropped := acc, blocks := true }
    | oldest :: rest =>
        dropOldestLoop { s with queue := rest } t (acc ++ [oldest])
termination_by s.queue.length
decreasing_by simp [hq]

/-- `pipeSender.write` from `core/pipe.go`, lines 106-146. On a closed sender
it returns `errPipeClosed` without touching anything. Otherwise the outgoing
tuple is a shallow copy when the input tuple's shared flag is set (leaving the
input untouched) and the input tuple itself otherwise (mutated in place); its
`InputName` is overwritten with the sender's edge name. `DropNone` blocks on a
full queue; `DropLatest` reports the outgoing tuple dropped and returns `nil`
without incrementing `cnt`; `DropOldest` runs the retry loop. `finalInput` is
the caller's tuple object after the call. -/
def pipeSenderWrite (s : PipeSenderState) (input : Tuple) : WriteOutcome :=
  if s.closed then
    { state := s, err := some .errPipeClosed, finalInput := input,
      dropped := [], blocks := false }
  else
    let copied := input.flags.shared
    let t0 := if copied then input.ShallowCopy else input
    let t : Tuple := { t0 with inputName := s.inputName }
    -- When the tuple is not shared, `t` aliases the caller's tuple, so the
    -- `InputName` assignment is visible to the caller.
    let finalIn := if copied then input else t
    match s.dropMode with
    | .dropNone =>
        if s.queue.length < s.capacity then
          { state := { s with queue := s.queue ++ [t], cnt := s.cnt + 1 },
            err := none, finalInput := finalIn, dropped := [], blocks := false }
        else
          { state := s, err := none, finalInput := finalIn, dropped := [],
            blocks := true }
    | .dropLatest =>
        if s.queue.length < s.capacity then
          { state := { s with queue := s.queue ++ [t], cnt := s.cnt + 1 },
            err := none, finalInput := finalIn, dropped := [], blocks := false }
        else
          { state := s, err := none, finalInput := finalIn, dropped := [t],
            blocks := false }
    | .dropOldest =>
        let r := dropOldestLoop s t []
        { r with finalInput := finalIn }

/-- The state of a `dataDestinations` fan-out from `core/pipe.go`: the atomic
counters, the destination map (modelled as an association list preserving
registration order) and the pause flag. -/
structure DataDestinationsState where
  numSent : Int
  numDropped : Int
  dsts : List (String × PipeSenderState)
  paused : Bool
deriving DecidableEq, Repr

/-- The observable outcome of one `dataDestinations.Write` call: the fan-out
state afterwards (closed destinations removed), the state of the caller's
tuple object after the call (`Write` sets `TFShared` in place when there are
two or more destinations), the per-destination write outcomes in destination
order, and whether the call blocks on the pause condition variable. -/
structure DDWriteOutcome where
  state : DataDestinationsState
  finalTuple : Tuple
  results : List (String × WriteOutcome)
  blocksOnPause : Bool
deriving DecidableEq, Repr

/-- `dataDestinations.Write` from `core/pipe.go`, lines 789-867. While paused
the writer waits (modelled as blocking). With no destinations the tuple is
dropped and `numDropped` incremented. With two or more destinations the
tuple's `TFShared` flag is set in place before any destination write. Each
destination's `pipeSender.write` is then invoked with the same tuple;
destinations returning `errPipeClosed` are removed afterwards. `numSent` is
incremented once per call. -/
def dataDestinationsWrite (d : DataDestinationsState) (t : Tuple) :
    DDWriteOutcome :=
  if d.paused then
    { state := d, finalTuple := t, results := [], blocksOnPause := true }
  else if d.dsts.length = 0 then
    { state := { d with numDropped := d.numDropped + 1 }, finalTuple := t,
      results := [], blocksOnPause := false }
  else
    let t' := if d.dsts.length > 1 then
        { t with flags := { t.flags with shared := true } }
      else t
    let written := d.dsts.map fun nd => (nd.1, pipeSenderWrite nd.2 t')
    let remaining := (written.filter fun nr => nr.2.err = none).map
      fun nr => (nr.1, nr.2.state)
    { state := { d with dsts := remaining, numSent := d.numSent + 1 },
      finalTuple := t', results := written, blocksOnPause := false }

/-! ## UDF bridge (udf package) -/

/-- Go types as observed through `reflect` by the UDF bridge: the kinds the
bridge dispatches on, plus the named types it special-cases (`data.Map`,
`time.Time`, the `data.Value` interface, `*core.Context`, `error`). Types the
bridge does not support are collapsed into `otherType`. -/
inductive GoType where
  | goBool
  | goInt
  | goInt8
  | goInt16
  | goInt32
  | goInt64
  | goUint
  | goUint8
  | goUint16
  | goUint32
  | goUint64
  | goFloat32
  | goFloat64
  | goString
  | goSlice (elem : GoType)
  | dataMapType
  | timeType
  | dataValueType
  | contextPtrType
  | errorType
  | otherType (name : String)
deriving DecidableEq, Repr

/-- `t.Kind() == reflect.Slice`. -/
def GoType.isSliceKind : GoType → Bool
  | .goSlice _ => true
  | _ => false

/-- `t.Elem()` for a slice type (only called on slice types by the bridge;
Go's variadic tail parameter always has slice type). -/
def GoType.elemType : GoType → GoType
  | .goSlice e => e
  | t => t

/-- A Go function type as seen through `reflect`: `ins` lists the parameter
types (`NumIn`/`In`), `outs` the return types (`NumOut`/`Out`), and
`variadic` is `IsVariadic` (a variadic tail appears in `ins` once, as its
slice type). -/
structure GoFuncType where
  ins : List GoType
  variadic : Bool
  outs : List GoType
deriving DecidableEq, Repr

/-- `genericFuncHasContext` from the `udf` package: the function receives a
context when its first parameter accepts a `*core.Context`. -/
def genericFuncHasContext (t : GoFuncType) : Bool :=
  match t.ins with
  | [] => false
  | c :: _ => c = .contextPtrType

/-- The number of non-context arguments of the function (the `arity` field of
`genericFunc`, counting a variadic tail once). -/
def nonCtxArity (t : GoFuncType) : Nat :=
  t.ins.length - (if genericFuncHasContext t then 1 else 0)

/-- Modelled from the spec: `data.NewValue` (the `data` package is not under
`src/`) converts a zero value of the given Go type to a `Value` of the value
model (null, bool, int64, float64, string, blob, timestamp, sequence,
mapping); unsupported types fail. -/
def zeroValueConvertible : GoType → Bool
  | .goBool | .goInt | .goInt8 | .goInt16 | .goInt32 | .goInt64
  | .goUint | .goUint8 | .goUint16 | .goUint32 | .goUint64
  | .goFloat32 | .goFloat64 | .goString => true
  | .goSlice e => zeroValueConvertible e
  | .dataMapType | .timeType | .dataValueType => true
  | .contextPtrType | .errorType | .otherType _ => false

/-- Whether a type is an interface type in the `reflect` sense, as far as the
bridge's type universe is concerned. -/
def GoType.isInterfaceKind : GoType → Bool
  | .dataValueType | .errorType => true
  | _ => false

/-- Whether a type implements the `data.Value` interface (`data.Value` itself
is the only interface accepted by the bridge). -/
def GoType.implementsDataValue : GoType → Bool
  | .dataValueType => true
  | _ => false

/-- `checkGenericFuncReturnTypes` from the `udf` package: the function must
return one value convertible to `data.Value`, or such a value plus an
`error`; on success reports whether the error return is present. -/
def checkGenericFuncReturnTypes (t : GoFuncType) : Except String Bool :=
  match t.outs with
  | [out0, out1] =>
      if out1 ≠ .errorType then
        .error "the second return value must be an error"
      else if out0.isInterfaceKind && !out0.implementsDataValue then
        .error "the return value isn't convertible to data.Value"
      else if !zeroValueConvertible out0 then
        .error "the return value isn't convertible to data.Value"
      else .ok true
  | [out0] =>
      if out0.isInterfaceKind && !out0.implementsDataValue then
        .error "the return value isn't convertible to data.Value"
      else if !zeroValueConvertible out0 then
        .error "the return value isn't convertible to data.Value"
      else .ok false
  | _ => .error "the number of return values must be 1 or 2"

/-- `genericFuncArgumentConverter` from the `udf` package: succeeds exactly on
the argument types the bridge can coerce a runtime `Value` into — bool,
integers, floats, string, byte slices (blobs), slices of convertible element
types, `data.Map`, `time.Time` and `data.Value` itself. -/
def genericFuncArgumentConverter : GoType → Except String Unit
  | .goBool | .goInt | .goInt8 | .goInt16 | .goInt32 | .goInt64
  | .goUint | .goUint8 | .goUint16 | .goUint32 | .goUint64
  | .goFloat32 | .goFloat64 | .goString => .ok ()
  | .goSlice e =>
      if e = .goUint8 then .ok ()
      else genericFuncArgumentConverter e
  | .dataMapType => .ok ()
  | .timeType => .ok ()
  | .dataValueType => .ok ()
  | .contextPtrType => .error "unsupported type"
  | .errorType => .error "unsupported type"
  | .otherType _ => .error "unsupported type"

/-- `createGenericConverters` from the `udf` package: builds a converter per
parameter from index `argStart` on, taking the element type for the variadic
tail; the first unsupported parameter type aborts with its error. -/
def createGenericConverters (t : GoFuncType) (argStart : Nat) :
    Except String Unit :=
  go (List.enumFrom argStart (t.ins.drop argStart))
where
  go : List (Nat × GoType) → Except String Unit
    | [] => .ok ()
    | (i, arg) :: rest =>
        let arg := if i = t.ins.length - 1 && t.variadic then arg.elemType else arg
        match genericFuncArgumentConverter arg with
        | .error e => .error e
        | .ok () => go rest

/-- The `genericFunc` record built by the bridge (its `reflect.Value` function
handle and the converter closures carry no further observable data and are
omitted). -/
structure GenericFunc where
  hasContext : Bool
  hasError : Bool
  variadic : Bool
  arity : Nat
  aggregationParameter : List Bool
deriving DecidableEq, Repr

/-- The aggregation-parameter slice check of `convertGenericAggregate`: for
each index `i` in the given list, if `aggParams[i]` is set, the corresponding
function parameter (offset by one when a context parameter is present) must
have slice kind; returns the first error. -/
def checkAggSlices (t : GoFuncType) (aggParams : List Bool) (hasCtx : Bool) :
    List Nat → Option String
  | [] => none
  | i :: rest =>
      if aggParams.getD i false then
        let inIdx := if hasCtx then i + 1 else i
        if (t.ins.getD inIdx (.otherType "")).isSliceKind then
          checkAggSlices t aggParams hasCtx rest
        else some ("the " ++ toString (i + 1) ++ "-th parameter for aggregation must be slice")
      else checkAggSlices t aggParams hasCtx rest

/-- `convertGenericAggregate` from the `udf` package (the common path behind
`ConvertGeneric` and `ConvertGenericAggregate`), applied to a function type.
When registering an aggregate it requires at least one non-context argument
and at least one `true` entry in `aggParams`; in all cases `aggParams` must
match the arity, marked parameters must have slice kind, the return types
must check out, and every parameter needs a converter. -/
def convertGenericAggregate (t : GoFuncType) (aggParams : List Bool)
    (isAggregate : Bool) : Except String GenericFunc :=
  let hasCtx := genericFuncHasContext t
  let arity := nonCtxArity t
  if isAggregate ∧ arity = 0 then
    .error "UDAF must have at least one argument"
  else if isAggregate ∧ ¬(aggParams.any id) then
    .error "the function doesn't have an aggregation parameter"
  else if arity ≠ aggParams.length then
    .error "the aggParams must have the same number of arguments of the function"
  else match checkAggSlices t aggParams hasCtx (List.range arity) with
  | some e => .error e
  | none =>
    match checkGenericFuncReturnTypes t with
    | .error e => .error e
    | .ok hasErr =>
      match createGenericConverters t (t.ins.length - arity) with
      | .error e => .error e
      | .ok () =>
          .ok { hasContext := hasCtx, hasError := hasErr,
                variadic := t.variadic, arity := arity,
                aggregationParameter := aggParams }

/-- `genericFunc.Accept` from the `udf` package: an argument count is
acceptable when it equals the arity, when the function is variadic and the
count exceeds the arity, or when the function is variadic and the count is
exactly one below the arity (empty variadic tail). -/
def GenericFunc.Accept (g : GenericFunc) (arity : Nat) : Bool :=
  if arity < g.arity then
    if g.variadic && arity = g.arity - 1 then true
    else false
  else if arity ≠ g.arity && !g.variadic then false
  else true

/-! ## Parser wrapper (parser package) -/

/-- The outcome of running a piece of Go code that may panic: either a normal
result or a panic carrying a message. -/
inductive GoResult (α : Type) where
  | ok (value : α)
  | panicked (msg : String)
deriving DecidableEq, Repr

/-- Sequencing of possibly-panicking Go code: a panic propagates past the
rest of the function body. -/
def GoResult.bind : GoResult α → (α → GoResult β) → GoResult β
  | .ok a, f => f a
  | .panicked m, _ => .panicked m

/-- `defer`/`recover` semantics: a deferred `recover` turns a panic into a
normal return computed by the handler; a normal result is unchanged. -/
def GoResult.recoverWith (handler : String → α) : GoResult α → GoResult α
  | .ok a => .ok a
  | .panicked m => .ok (handler m)

/-- An element of the parse stack: the parsed component and the end offset
(in runes) of the parsed statement within the input. -/
structure StackElem (α : Type) where
  comp : α
  endPos : Nat
deriving DecidableEq, Repr

/-- Modelled from the spec: one run of the generated PEG backend (`bqlPeg` /
`bqlPegBackend`, generated code not under `src/`) on a fixed input, observed
as the outcomes of the three backend steps `ParseStmt` performs — `Parse`
(which may return a parse error), `Execute`, and the final `Peek`/`Pop` of
the parse stack. Each step is arbitrary code and may panic. -/
structure BqlPegRun (α : Type) where
  parseStep : GoResult (Option String)
  executeStep : GoResult Unit
  stackTop : GoResult (Option (StackElem α))

/-- The rest-of-input computation of `ParseStmt`: the input runes after the
parsed statement, with leading whitespace and semicolons trimmed
(`strings.TrimLeftFunc` with `isSpaceOrSemicolon`). -/
def trimRest (s : String) (endPos : Nat) : String :=
  String.mk ((s.data.drop endPos).dropWhile fun r => r.isWhitespace || r = ';')

/-- The body of `BQLParser.ParseStmt` (everything after the deferred
`recover` is installed): run `Parse`, surface its error; run `Execute`; peek
the parse stack, failing when it is empty; otherwise pop the component and
trim the rest string. Result triple: `(result, rest, err)`. -/
def ParseStmtBody (s : String) (run : BqlPegRun α) :
    GoResult (Option α × String × Option String) :=
  run.parseStep.bind fun perr =>
    match perr with
    | some e => .ok (none, "", some e)
    | none =>
        run.executeStep.bind fun _ =>
          run.stackTop.bind fun top =>
            match top with
            | none => .ok (none, "", some "no valid BQL statement could be parsed")
            | some elem => .ok (some elem.comp, trimRest s elem.endPos, none)

/-- `BQLParser.ParseStmt` from the `parser` package: the body guarded by the
deferred `recover` that converts any panic into the error
`Error in BQL parser: <panic value>`. -/
def ParseStmt (s : String) (run : BqlPegRun α) :
    GoResult (Option α × String × Option String) :=
  (ParseStmtBody s run).recoverWith
    fun m => (none, "", some ("Error in BQL parser: " ++ m))

/-- A concrete fan-out state with two open destinations, used as a test
vector. -/
def ddExample : DataDestinationsState :=
  { numSent := 0, numDropped := 0,
    dsts :=
      [("a", { cnt := 0, inputName := "a", queue := [], capacity := 1,
               dropMode := .dropNone, closed := false }),
       ("b", { cnt := 0, inputName := "b", queue := [], capacity := 1,
               dropMode := .dropNone, closed := false })],
    paused := false }

/-- A concrete unshared tuple, used as a test vector. -/
def tupExample : Tuple :=
  { inputName := "src", flags := { shared := false }, data := [] }

/-- A concrete shared tuple, used as a test vector. -/
def tupShared : Tuple :=
  { inputName := "old", flags := { shared := true }, data := [] }

/-- A concrete open empty sender with capacity one, used as a test vector. -/
def senderOpen : PipeSenderState :=
  { cnt := 0, inputName := "edge", queue := [], capacity := 1,
    dropMode := .dropNone, closed := false }

/-- A concrete closed sender, used as a test vector. -/
def senderClosed : PipeSenderState :=
  { cnt := 7, inputName := "edge", queue := [], capacity := 1,
    dropMode := .dropNone, closed := true }

/-- A concrete full drop-latest sender, used as a test vector. -/
def senderFullLatest : PipeSenderState :=
  { cnt := 1, inputName := "edge", queue := [tupExample], capacity := 1,
    dropMode := .dropLatest, closed := false }

/-- Whether a bridge registration attempt was rejected. -/
def registrationRejected : Except String GenericFunc → Bool
  | .error _ => true
  | .ok _ => false

/-- A concrete function type `func(int) int64`, used as a test vector. -/
def ftAggExample : GoFuncType :=
  { ins := [.goInt], variadic := false, outs := [.goInt64] }

/-- A concrete variadic function type `func(int, ...string) int64`, used as a
test vector. -/
def ftVariadicExample : GoFuncType :=
  { ins := [.goInt, .goSlice .goString], variadic := true, outs := [.goInt64] }

/-- The `genericFunc` record the bridge builds for `ftVariadicExample`. -/
def genericFuncExample : GenericFunc :=
  { hasContext := false, hasError := false, variadic := true, arity := 2,
    aggregationParameter := [false, false] }

/-- A concrete backend run whose `Parse` step panics, used as a test vector. -/
def runPanicExample : BqlPegRun Unit :=
  { parseStep := .panicked "boom", executeStep := .ok (), stackTop := .ok none }

/-! ## Helper lemmas -/

/-- `all` over an attached list agrees with `all` over the list itself. -/
theorem attach_all_eq {α : Type} (l : List α) (f : α → Bool) :
    (l.attach.all fun x => f x.1) = l.all f := by
  rw [Bool.eq_iff_iff, List.all_eq_true, List.all_eq_true]
  constructor
  · intro h x hx
    exact h ⟨x, hx⟩ (List.mem_attach l ⟨x, hx⟩)
  · intro h x _
    exact h x.1 x.2

/-- `RenameReferencedRelation` on a function application, in plain `map`
form. -/
theorem rename_funcApp_eq (frm tgt f : String) (es : List Expression)
    (ord : List (Expression × BinaryKeyword)) :
    (Expression.funcApp f es ord).RenameReferencedRelation frm tgt =
      .funcApp f (es.map (Expression.RenameReferencedRelation frm tgt))
        (ord.map fun p => (p.1.RenameReferencedRelation frm tgt, p.2)) := by
  simp only [Expression.RenameReferencedRelation]
  rw [List.attach_map_val es (Expression.RenameReferencedRelation frm tgt),
    List.attach_map_val ord
      (fun p => (Expression.RenameReferencedRelation frm tgt p.1, p.2))]

/-- `RenameReferencedRelation` on an array literal, in plain `map` form. -/
theorem rename_arrayAST_eq (frm tgt : String) (es : List Expression) :
    (Expression.arrayAST es).RenameReferencedRelation frm tgt =
      .arrayAST (es.map (Expression.RenameReferencedRelation frm tgt)) := by
  simp only [Expression.RenameReferencedRelation]
  rw [List.attach_map_val es (Expression.RenameReferencedRelation frm tgt)]

/-- `RenameReferencedRelation` on a map literal, in plain `map` form. -/
theorem rename_mapAST_eq (frm tgt : String) (entries : List (String × Expression)) :
    (Expression.mapAST entries).RenameReferencedRelation frm tgt =
      .mapAST (entries.map fun p => (p.1, p.2.RenameReferencedRelation frm tgt)) := by
  simp only [Expression.RenameReferencedRelation]
  rw [List.attach_map_val entries
    (fun p => (p.1, Expression.RenameReferencedRelation frm tgt p.2))]

/-- `RenameReferencedRelation` on a searched `CASE`, in plain `map` form. -/
theorem rename_conditionCase_eq (frm tgt : String)
    (checks : List (Expression × Expression)) (els : Option Expression) :
    (Expression.conditionCase checks els).RenameReferencedRelation frm tgt =
      .conditionCase
        (checks.map fun p =>
          (p.1.RenameReferencedRelation frm tgt, p.2.RenameReferencedRelation frm tgt))
        (match els with
         | some e => some (e.RenameReferencedRelation frm tgt)
         | none => none) := by
  cases els <;>
    · simp only [Expression.RenameReferencedRelation]
      rw [List.attach_map_val checks
        (fun p => (Expression.RenameReferencedRelation frm tgt p.1,
          Expression.RenameReferencedRelation frm tgt p.2))]

/-- `RenameReferencedRelation` on a simple `CASE`, in plain `map` form. -/
theorem rename_expressionCase_eq (frm tgt : String) (e : Expression)
    (checks : List (Expression × Expression)) (els : Option Expression) :
    (Expression.expressionCase e checks els).RenameReferencedRelation frm tgt =
      .expressionCase (e.RenameReferencedRelation frm tgt)
        (checks.map fun p =>
          (p.1.RenameReferencedRelation frm tgt, p.2.RenameReferencedRelation frm tgt))
        (match els with
         | some e' => some (e'.RenameReferencedRelation frm tgt)
         | none => none) := by
  cases els <;>
    · simp only [Expression.RenameReferencedRelation]
      rw [List.attach_map_val checks
        (fun p => (Expression.RenameReferencedRelation frm tgt p.1,
          Expression.RenameReferencedRelation frm tgt p.2))]

/-- `ReferencedRelations` of a function application, in plain `map` form. -/
theorem refs_funcApp_eq (f : String) (es : List Expression)
    (ord : List (Expression × BinaryKeyword)) :
    (Expression.funcApp f es ord).ReferencedRelations =
      (es.map Expression.ReferencedRelations).flatten ++
        (ord.map fun p => p.1.ReferencedRelations).flatten := by
  simp only [Expression.ReferencedRelations]
  rw [List.attach_map_val es Expression.ReferencedRelations,
    List.attach_map_val ord (fun p => Expression.ReferencedRelations p.1)]

/-- `ReferencedRelations` of an array literal, in plain `map` form. -/
theorem refs_arrayAST_eq (es : List Expression) :
    (Expression.arrayAST es).ReferencedRelations =
      (es.map Expression.ReferencedRelations).flatten := by
  simp only [Expression.ReferencedRelations]
  rw [List.attach_map_val es Expression.ReferencedRelations]

/-- `ReferencedRelations` of a map literal, in plain `map` form. -/
theorem refs_mapAST_eq (entries : List (String × Expression)) :
    (Expression.mapAST entries).ReferencedRelations =
      (entries.map fun p => p.2.ReferencedRelations).flatten := by
  simp only [Expression.ReferencedRelations]
  rw [List.attach_map_val entries (fun p => Expression.ReferencedRelations p.2)]

/-- `ReferencedRelations` of a searched `CASE`, in plain `map` form. -/
theorem refs_conditionCase_eq (checks : List (Expression × Expression))
    (els : Option Expression) :
    (Expression.conditionCase checks els).ReferencedRelations =
      (checks.map fun p =>
        p.1.ReferencedRelations ++ p.2.ReferencedRelations).flatten ++
        (match els with
         | some e => e.ReferencedRelations
         | none => []) := by
  cases els <;>
    · simp only [Expression.ReferencedRelations]
      rw [List.attach_map_val checks
        (fun p => Expression.ReferencedRelations p.1 ++ Expression.ReferencedRelations p.2)]

/-- `ReferencedRelations` of a simple `CASE`, in plain `map` form. -/
theorem refs_expressionCase_eq (e : Expression)
    (checks : List (Expression × Expression)) (els : Option Expression) :
    (Expression.expressionCase e checks els).ReferencedRelations =
      e.ReferencedRelations ++
        ((checks.map fun p =>
          p.1.ReferencedRelations ++ p.2.ReferencedRelations).flatten ++
          (match els with
           | some e' => e'.ReferencedRelations
           | none => [])) := by
  cases els <;>
    · simp only [Expression.ReferencedRelations]
      rw [List.attach_map_val checks
        (fun p => Expression.ReferencedRelations p.1 ++ Expression.ReferencedRelations p.2)]
      rw [List.append_assoc]

/-! ## Claim theorems -/

/-- C3, counterexample: `AND` appears strictly later than `OR` in the
specification's precedence list, yet the parenthesization comparison
`hasHigherPrecedenceThan` does not rank it higher (they share the
`{OR, AND, NOT}` precedence group). -/
theorem and_not_higher_than_or :
    Operator.opAnd.hasHigherPrecedenceThan Operator.opOr = false := by decide

/-- C3 (amended): along the specification's operator list precedence is
non-strictly increasing, and `hasHigherPrecedenceThan` ranks one operator
above another exactly when its equal-precedence group (`{OR, AND, NOT}`,
`{<, <=, >, >=}`, `{IS, IS NOT}`, `{+, -}`, `{*, /, %}`, singletons
otherwise) comes strictly later. -/
theorem hasHigherPrecedenceThan_iff_precGroup_lt :
    (∀ a b : Operator,
        a.hasHigherPrecedenceThan b = decide (b.precGroup < a.precGroup)) ∧
      specPrecedenceList.Pairwise fun a b => a.precGroup ≤ b.precGroup := by
  constructor
  · decide
  · decide

/-- C4: a function application is foldable exactly when it is not a zero
argument `now()` call, carries no `ORDER BY` clause (the AST's marker of an
aggregate call), and all its argument subtrees are foldable; literals are
always foldable and binary/unary operator nodes are foldable exactly when all
their operand subtrees are. -/
theorem foldable_characterization :
    (∀ (f : String) (es : List Expression) (ord : List (Expression × BinaryKeyword)),
        (Expression.funcApp f es ord).Foldable = true ↔
          ¬(f = "now" ∧ es = []) ∧ ord = [] ∧ ∀ e ∈ es, e.Foldable = true) ∧
      (∀ v, (Expression.numericLiteral v).Foldable = true) ∧
      (∀ v, (Expression.floatLiteral v).Foldable = true) ∧
      Expression.nullLiteral.Foldable = true ∧
      Expression.missing.Foldable = true ∧
      (∀ b, (Expression.boolLiteral b).Foldable = true) ∧
      (∀ s, (Expression.stringLiteral s).Foldable = true) ∧
      (∀ op l r, (Expression.binaryOp op l r).Foldable = (l.Foldable && r.Foldable)) ∧
      (∀ op e, (Expression.unaryOp op e).Foldable = e.Foldable) := by
  refine ⟨?_, fun v => by simp [Expression.Foldable],
    fun v => by simp [Expression.Foldable], by simp [Expression.Foldable],
    by simp [Expression.Foldable], fun b => by simp [Expression.Foldable],
    fun s => by simp [Expression.Foldable],
    fun op l r => by simp [Expression.Foldable],
    fun op e => by simp [Expression.Foldable]⟩
  intro f es ord
  simp only [Expression.Foldable]
  split_ifs with h1 h2
  · rw [Bool.and_eq_true, List.isEmpty_iff, decide_eq_true_eq] at h1
    simp [h1.1, h1.2]
  · rw [Bool.and_eq_true] at h1
    have : ord ≠ [] := by
      intro h
      simp [h] at h2
    simp [this]
  · rw [Bool.and_eq_true] at h1
    have hord : ord = [] := by
      rcases ord with _ | ⟨p, rest⟩
      · rfl
      · exact absurd (by simp) h2
    have hnow : ¬(f = "now" ∧ es = []) := by
      intro hc
      exact h1 ⟨by simp [hc.1], by simp [hc.2]⟩
    rw [attach_all_eq, List.all_eq_true]
    simp [hnow, hord]

/-- C2, counterexample: renaming relation `a` to `b` and back is not the
identity on an expression that already references `b`: the row value `b:c`
is untouched by the first rename and mapped to `a:c` by the second. -/
theorem rename_roundTrip_counterexample :
    ((Expression.rowValue "b" "c").RenameReferencedRelation "a" "b").RenameReferencedRelation
        "b" "a" ≠ Expression.rowValue "b" "c" := by
  simp [Expression.RenameReferencedRelation]

/-- Every tuple queued after the `DropOldest` retry loop was already queued
before the call, is the outgoing tuple itself, or came from the accumulator
(which the loop only reads). -/
theorem mem_queue_dropOldestLoop (s : PipeSenderState) (t : Tuple)
    (acc : List Tuple) :
    ∀ u ∈ (dropOldestLoop s t acc).state.queue, u ∈ s.queue ∨ u = t := by
  rw [dropOldestLoop]
  split_ifs with h
  · intro u hu
    simp only [List.mem_append, List.mem_singleton] at hu
    exact hu
  · split
    · intro u hu
      exact Or.inl hu
    · rename_i oldest rest hq
      intro u hu
      rcases mem_queue_dropOldestLoop { s with queue := rest } t (acc ++ [oldest]) u hu with
        hin | heq
      · exact Or.inl (by rw [hq]; exact List.mem_cons_of_mem _ hin)
      · exact Or.inr heq
termination_by s.queue.length
decreasing_by simp_all

/-- Every tuple queued after a `pipeSender.write` call was already queued
before the call or carries exactly the flags of the tuple handed to the
sender (the shallow copy and the `InputName` overwrite leave flags intact). -/
theorem mem_queue_pipeSenderWrite (s : PipeSenderState) (input : Tuple) :
    ∀ u ∈ (pipeSenderWrite s input).state.queue,
      u ∈ s.queue ∨ u.flags = input.flags := by
  intro u hu
  by_cases hc : s.closed
  · simp [pipeSenderWrite, hc] at hu
    exact Or.inl hu
  · rcases hdm : s.dropMode with _ | _ | _ <;>
      by_cases hroom : s.queue.length < s.capacity <;>
        cases hsh : input.flags.shared <;>
          simp [pipeSenderWrite, hc, hdm, hroom, hsh, Tuple.ShallowCopy] at hu <;>
            first
              | exact Or.inl hu
              | (rcases hu with hin | rfl
                 · exact Or.inl hin
                 · right
                   rfl)
              | (rcases mem_queue_dropOldestLoop _ _ _ u hu with hin | rfl
                 · exact Or.inl hin
                 · right
                   rfl)

/-- C1: on an open sender with room in the queue, `write` enqueues exactly one
tuple whose `input_name` is the receiver-side edge name; when the input's
shared flag is set that tuple is a shallow copy and the caller's tuple is left
unchanged, and when the flag is clear the input tuple itself (with its
`input_name` overwritten) is the enqueued tuple. -/
theorem pipeSenderWrite_shared_discipline (s : PipeSenderState) (input : Tuple)
    (hopen : s.closed = false) (hroom : s.queue.length < s.capacity) :
    ∃ t : Tuple,
      (pipeSenderWrite s input).state.queue = s.queue ++ [t] ∧
        t.inputName = s.inputName ∧
        (input.flags.shared = true →
          t = { input.ShallowCopy with inputName := s.inputName } ∧
            (pipeSenderWrite s input).finalInput = input) ∧
        (input.flags.shared = false →
          t = { input with inputName := s.inputName } ∧
            (pipeSenderWrite s input).finalInput = t) := by
  refine ⟨{ (if input.flags.shared then input.ShallowCopy else input) with
    inputName := s.inputName }, ?_, ?_, ?_, ?_⟩
  · rcases hdm : s.dropMode with _ | _ | _ <;>
      cases hsh : input.flags.shared <;>
        simp [pipeSenderWrite, dropOldestLoop, hopen, hroom, hdm, hsh]
  · simp
  · intro hsh
    constructor
    · simp [hsh]
    · rcases hdm : s.dropMode with _ | _ | _ <;>
        simp [pipeSenderWrite, dropOldestLoop, hopen, hroom, hdm, hsh]
  · intro hsh
    constructor
    · simp [hsh]
    · rcases hdm : s.dropMode with _ | _ | _ <;>
        simp [pipeSenderWrite, dropOldestLoop, hopen, hroom, hdm, hsh]

/-- C1 witness: a concrete open sender with room accepts a concrete shared
tuple as described. -/
theorem pipeSenderWrite_shared_discipline_witness :
    (∃ t : Tuple,
      (pipeSenderWrite senderOpen tupShared).state.queue = senderOpen.queue ++ [t] ∧
        t.inputName = senderOpen.inputName ∧
        (tupShared.flags.shared = true →
          t = { tupShared.ShallowCopy with inputName := senderOpen.inputName } ∧
            (pipeSenderWrite senderOpen tupShared).finalInput = tupShared) ∧
        (tupShared.flags.shared = false →
          t = { tupShared with inputName := senderOpen.inputName } ∧
            (pipeSenderWrite senderOpen tupShared).finalInput = t)) :=
  pipeSenderWrite_shared_discipline senderOpen tupShared (by rfl) (by decide)

/-- C5: writing to a closed sender returns the `errPipeClosed` sentinel and
has no other effect: the sender state (queue and written-tuple counter) is
unchanged, the caller's tuple is untouched, nothing is dropped and the call
does not block. -/
theorem pipeSenderWrite_closed (s : PipeSenderState) (input : Tuple)
    (hclosed : s.closed = true) :
    pipeSenderWrite s input =
      { state := s, err := some .errPipeClosed, finalInput := input,
        dropped := [], blocks := false } := by
  simp [pipeSenderWrite, hclosed]

/-- C5 witness: a concrete closed sender rejects a concrete tuple with the
sentinel and no side effect. -/
theorem pipeSenderWrite_closed_witness :
    pipeSenderWrite senderClosed tupExample =
      { state := senderClosed, err := some .errPipeClosed,
        finalInput := tupExample, dropped := [], blocks := false } :=
  pipeSenderWrite_closed senderClosed tupExample (by rfl)

/-- C6: on an open drop-latest sender whose queue is full, `write` returns
success (`nil` error), enqueues nothing and leaves the sender state (queue
and counter) unchanged, does not block, and reports exactly one dropped
tuple: the discarded new (outgoing) tuple. -/
theorem pipeSenderWrite_dropLatest_full (s : PipeSenderState) (input : Tuple)
    (hopen : s.closed = false) (hmode : s.dropMode = .dropLatest)
    (hfull : s.capacity ≤ s.queue.length) :
    (pipeSenderWrite s input).err = none ∧
      (pipeSenderWrite s input).state = s ∧
      (pipeSenderWrite s input).blocks = false ∧
      (pipeSenderWrite s input).dropped =
        [{ (if input.flags.shared then input.ShallowCopy else input) with
            inputName := s.inputName }] := by
  have hroom : ¬(s.queue.length < s.capacity) := by omega
  cases hsh : input.flags.shared <;>
    simp [pipeSenderWrite, hopen, hmode, hroom, hsh]

/-- C6 witness: a concrete full drop-latest sender discards a concrete tuple
while reporting success. -/
theorem pipeSenderWrite_dropLatest_full_witness :
    (pipeSenderWrite senderFullLatest tupExample).err = none ∧
      (pipeSenderWrite senderFullLatest tupExample).state = senderFullLatest ∧
      (pipeSenderWrite senderFullLatest tupExample).blocks = false ∧
      (pipeSenderWrite senderFullLatest tupExample).dropped =
        [{ (if tupExample.flags.shared then tupExample.ShallowCopy else tupExample) with
            inputName := senderFullLatest.inputName }] :=
  pipeSenderWrite_dropLatest_full senderFullLatest tupExample (by rfl) (by rfl) (by decide)

/-- C7: while unpaused and with at least two registered destinations, the
fan-out sets the tuple's shared flag before any destination write: the tuple
object handed to every destination has the flag set, every destination's
outcome is the write of exactly that tuple, and every tuple queued at a
destination afterwards was already queued there or has the shared flag set. -/
theorem dataDestinationsWrite_sets_shared (d : DataDestinationsState) (t : Tuple)
    (hp : d.paused = false) (h2 : 2 ≤ d.dsts.length) :
    (dataDestinationsWrite d t).finalTuple.flags.shared = true ∧
      ((dataDestinationsWrite d t).results =
        d.dsts.map fun nd => (nd.1, pipeSenderWrite nd.2 (dataDestinationsWrite d t).finalTuple)) ∧
      ∀ pr ∈ (dataDestinationsWrite d t).results, ∀ u ∈ pr.2.state.queue,
        (∃ s0, (pr.1, s0) ∈ d.dsts ∧ u ∈ s0.queue) ∨ u.flags.shared = true := by
  have hne : ¬(d.dsts.length = 0) := by omega
  have hgt : d.dsts.length > 1 := by omega
  refine ⟨?_, ?_, ?_⟩
  · simp [dataDestinationsWrite, hp, hne, hgt]
  · simp [dataDestinationsWrite, hp, hne, hgt]
  · intro pr hpr u hu
    simp only [dataDestinationsWrite, hp, Bool.false_eq_true, if_false, hne,
      hgt, if_true, gt_iff_lt, if_pos] at hpr
    rw [List.mem_map] at hpr
    obtain ⟨nd, hnd, rfl⟩ := hpr
    rcases mem_queue_pipeSenderWrite nd.2 _ u hu with hin | hfl
    · exact Or.inl ⟨nd.2, by simpa using hnd, hin⟩
    · exact Or.inr (by rw [hfl])

/-- C7 witness: a concrete two-destination fan-out marks a concrete tuple
shared before broadcasting it. -/
theorem dataDestinationsWrite_sets_shared_witness :
    ((dataDestinationsWrite ddExample tupExample).finalTuple.flags.shared = true ∧
      ((dataDestinationsWrite ddExample tupExample).results =
        ddExample.dsts.map fun nd =>
          (nd.1, pipeSenderWrite nd.2 (dataDestinationsWrite ddExample tupExample).finalTuple)) ∧
      ∀ pr ∈ (dataDestinationsWrite ddExample tupExample).results,
        ∀ u ∈ pr.2.state.queue,
          (∃ s0, (pr.1, s0) ∈ ddExample.dsts ∧ u ∈ s0.queue) ∨
            u.flags.shared = true) :=
  dataDestinationsWrite_sets_shared ddExample tupExample (by rfl) (by decide)

/-- If some index in the list is marked as an aggregation parameter but the
corresponding function parameter does not have slice kind, the slice check
reports an error. -/
theorem checkAggSlices_some_of_bad (t : GoFuncType) (aggParams : List Bool)
    (hasCtx : Bool) (l : List Nat) (i : Nat) (hi : i ∈ l)
    (hmark : aggParams.getD i false = true)
    (hslice :
      (t.ins.getD (if hasCtx then i + 1 else i) (.otherType "")).isSliceKind = false) :
    ∃ msg, checkAggSlices t aggParams hasCtx l = some msg := by
  simp only [List.getD_eq_getElem?_getD] at hmark hslice
  induction l with
  | nil => cases hi
  | cons j rest ih =>
    rw [checkAggSlices]
    rcases List.mem_cons.mp hi with rfl | hmem
    · simp [hmark, hslice]
    · by_cases hj : aggParams[j]?.getD false = true
      · by_cases hs :
          (t.ins[if hasCtx then j + 1 else j]?.getD (.otherType "")).isSliceKind = true
        · simpa [hj, hs] using ih hmem
        · rw [Bool.not_eq_true] at hs
          simp [hj, hs]
      · rw [Bool.not_eq_true] at hj
        simpa [hj] using ih hmem

/-- C8: registering an aggregate UDF is rejected whenever no entry of the
aggregation-parameter mask is true, whenever some parameter marked as an
aggregation parameter does not have slice (sequence) kind, or whenever the
function has zero non-context arguments; in each case an error and no UDF is
returned. -/
theorem convertGenericAggregate_rejects (t : GoFuncType) (aggParams : List Bool)
    (h : (¬aggParams.any id = true) ∨
        (∃ i, aggParams.getD i false = true ∧ i < nonCtxArity t ∧
          (t.ins.getD (if genericFuncHasContext t then i + 1 else i)
              (.otherType "")).isSliceKind = false) ∨
        nonCtxArity t = 0) :
    registrationRejected (convertGenericAggregate t aggParams true) = true := by
  rw [convertGenericAggregate]
  by_cases h0 : nonCtxArity t = 0
  · simp [h0, registrationRejected]
  · by_cases hany : aggParams.any id = true
    · rcases h with hno | ⟨i, hmark, hlt, hsl⟩ | h0'
      · exact absurd hany hno
      · by_cases hlen : nonCtxArity t = aggParams.length
        · obtain ⟨msg, hmsg⟩ := checkAggSlices_some_of_bad t aggParams
            (genericFuncHasContext t) (List.range (nonCtxArity t)) i
            (List.mem_range.mpr hlt) hmark hsl
          rw [hlen] at hmsg
          have hne : aggParams ≠ [] := by
            intro hnil
            rw [hlen, hnil] at h0
            exact h0 rfl
          simp [hlen, hne, hmsg, registrationRejected]
          split_ifs <;> rfl
        · simp [h0, hany, hlen, registrationRejected]
      · exact absurd h0' h0
    · simp [h0, hany, registrationRejected]

/-- C8 witness: registering `func(int) int64` as an aggregate with an
all-false mask is rejected. -/
theorem convertGenericAggregate_rejects_witness :
    registrationRejected (convertGenericAggregate ftAggExample [false] true) = true :=
  convertGenericAggregate_rejects ftAggExample [false] (Or.inl (by decide))

/-- C10: a UDF built by the generic bridge records as `arity` the number of
non-context parameters (a variadic tail counted once) and the function's
variadicity, and `Accept n` holds exactly when `n` equals that arity or the
function is variadic and `n` is at least the arity minus one. -/
theorem genericFunc_Accept_iff (t : GoFuncType) (aggParams : List Bool)
    (isAgg : Bool) (g : GenericFunc)
    (h : convertGenericAggregate t aggParams isAgg = .ok g) :
    g.arity = nonCtxArity t ∧ g.variadic = t.variadic ∧
      ∀ n, (g.Accept n = true ↔
        (n = g.arity ∨ (g.variadic = true ∧ g.arity ≤ n + 1))) := by
  have hfields : g.arity = nonCtxArity t ∧ g.variadic = t.variadic := by
    rw [convertGenericAggregate] at h
    split_ifs at h
    rcases h1 : checkAggSlices t aggParams (genericFuncHasContext t)
        (List.range (nonCtxArity t)) with _ | msg
    rotate_left
    · rw [h1] at h
      simp at h
    rw [h1] at h
    rcases h2 : checkGenericFuncReturnTypes t with msg | hasErr
    · rw [h2] at h
      simp at h
    rw [h2] at h
    rcases h3 : createGenericConverters t (t.ins.length - nonCtxArity t) with msg | u
    · rw [h3] at h
      simp at h
    rw [h3] at h
    simp only [Except.ok.injEq] at h
    rw [← h]
    exact ⟨rfl, rfl⟩
  refine ⟨hfields.1, hfields.2, ?_⟩
  intro n
  rw [GenericFunc.Accept]
  split_ifs with hlt hvar hne
  · simp only [Bool.and_eq_true, decide_eq_true_eq] at hvar
    simp only [true_iff]
    exact Or.inr ⟨hvar.1, by omega⟩
  · simp only [Bool.and_eq_true, decide_eq_true_eq, not_and] at hvar
    simp only [false_iff, not_or, not_and]
    constructor
    · omega
    · intro hv
      have := hvar hv
      omega
  · simp only [Bool.and_eq_true, decide_eq_true_eq, Bool.not_eq_true',
      Bool.not_eq_false] at hne
    simp only [false_iff, not_or, not_and]
    constructor
    · exact hne.1
    · intro hv
      rw [hv] at hne
      simp at hne
  · simp only [Bool.and_eq_true, decide_eq_true_eq, Bool.not_eq_true',
      Bool.not_eq_false, not_and] at hne
    simp only [true_iff]
    by_cases heq : n = g.arity
    · exact Or.inl heq
    · exact Or.inr ⟨hne heq, by omega⟩

/-- C10 witness: the bridge converts `func(int, ...string) int64` into a UDF
with arity 2 that accepts a single argument (empty variadic tail). -/
theorem genericFunc_Accept_iff_witness :
    genericFuncExample.arity = nonCtxArity ftVariadicExample ∧
      genericFuncExample.variadic = ftVariadicExample.variadic ∧
      genericFuncExample.Accept 1 = true := by
  have h := genericFunc_Accept_iff ftVariadicExample [false, false] false
    genericFuncExample (by rfl)
  exact ⟨h.1, h.2.1, (h.2.2 1).mpr (Or.inr ⟨rfl, by decide⟩)⟩

/-- C9: `ParseStmt` never panics — its deferred `recover` always yields a
normal return — and whenever its body panics, the panic is surfaced as the
non-nil parse error `Error in BQL parser: <panic value>`. -/
theorem ParseStmt_no_panic {α : Type} (s : String) (run : BqlPegRun α) :
    (∃ r, ParseStmt s run = .ok r) ∧
      ∀ m, ParseStmtBody s run = .panicked m →
        ParseStmt s run = .ok (none, "", some ("Error in BQL parser: " ++ m)) := by
  constructor
  · rcases hb : ParseStmtBody s run with r | m
    · exact ⟨r, by simp [ParseStmt, hb, GoResult.recoverWith]⟩
    · exact ⟨(none, "", some ("Error in BQL parser: " ++ m)),
        by simp [ParseStmt, hb, GoResult.recoverWith]⟩
  · intro m hm
    simp [ParseStmt, hm, GoResult.recoverWith]

/-- C9 witness: a backend run whose `Parse` step panics with `boom` yields a
normal return carrying the corresponding parse error. -/
theorem ParseStmt_no_panic_witness :
    (∃ r, ParseStmt "SELECT" runPanicExample = .ok r) ∧
      ParseStmt "SELECT" runPanicExample =
        .ok (none, "", some "Error in BQL parser: boom") :=
  ⟨(ParseStmt_no_panic "SELECT" runPanicExample).1,
    (ParseStmt_no_panic "SELECT" runPanicExample).2 "boom" (by rfl)⟩

/-- C2 (amended): `RenameReferencedRelation(from, to)` followed by
`RenameReferencedRelation(to, from)` is the identity on every expression that
does not already reference the relation `to`, provided `to` is not the empty
name (a `Wildcard` over the empty relation reports no referenced relations
yet is renamed like any other node). -/
theorem RenameReferencedRelation_roundTrip (frm tgt : String) (e : Expression)
    (htgt : tgt ≠ "") (hmem : tgt ∉ e.ReferencedRelations) :
    (e.RenameReferencedRelation frm tgt).RenameReferencedRelation tgt frm = e := by
  cases e with
  | aliasAST e1 a =>
      simp only [Expression.ReferencedRelations] at hmem
      simp only [Expression.RenameReferencedRelation]
      rw [RenameReferencedRelation_roundTrip frm tgt e1 htgt hmem]
  | binaryOp op l r =>
      simp only [Expression.ReferencedRelations] at hmem
      rw [List.mem_append] at hmem
      push_neg at hmem
      simp only [Expression.RenameReferencedRelation]
      rw [RenameReferencedRelation_roundTrip frm tgt l htgt hmem.1,
        RenameReferencedRelation_roundTrip frm tgt r htgt hmem.2]
  | unaryOp op e1 =>
      simp only [Expression.ReferencedRelations] at hmem
      simp only [Expression.RenameReferencedRelation]
      rw [RenameReferencedRelation_roundTrip frm tgt e1 htgt hmem]
  | typeCast e1 ty =>
      simp only [Expression.ReferencedRelations] at hmem
      simp only [Expression.RenameReferencedRelation]
      rw [RenameReferencedRelation_roundTrip frm tgt e1 htgt hmem]
  | sortedExpression e1 k =>
      simp only [Expression.ReferencedRelations] at hmem
      simp only [Expression.RenameReferencedRelation]
      rw [RenameReferencedRelation_roundTrip frm tgt e1 htgt hmem]
  | funcApp f es ord =>
      rw [refs_funcApp_eq] at hmem
      rw [List.mem_append] at hmem
      push_neg at hmem
      rw [rename_funcApp_eq, rename_funcApp_eq, List.map_map, List.map_map]
      congr 1
      · conv_rhs => rw [← List.map_id es]
        refine List.map_congr_left fun x hx => ?_
        simp only [Function.comp_apply, id_eq]
        refine RenameReferencedRelation_roundTrip frm tgt x htgt fun hc =>
          hmem.1 (List.mem_flatten.mpr
            ⟨x.ReferencedRelations, List.mem_map_of_mem _ hx, hc⟩)
      · conv_rhs => rw [← List.map_id ord]
        refine List.map_congr_left fun p hp => ?_
        simp only [Function.comp_apply, id_eq]
        have h1 := RenameReferencedRelation_roundTrip frm tgt p.1 htgt fun hc =>
          hmem.2 (List.mem_flatten.mpr
            ⟨p.1.ReferencedRelations, List.mem_map_of_mem _ hp, hc⟩)
        rw [h1]
  | arrayAST es =>
      rw [refs_arrayAST_eq] at hmem
      rw [rename_arrayAST_eq, rename_arrayAST_eq, List.map_map]
      congr 1
      conv_rhs => rw [← List.map_id es]
      refine List.map_congr_left fun x hx => ?_
      simp only [Function.comp_apply, id_eq]
      refine RenameReferencedRelation_roundTrip frm tgt x htgt fun hc =>
        hmem (List.mem_flatten.mpr
          ⟨x.ReferencedRelations, List.mem_map_of_mem _ hx, hc⟩)
  | mapAST entries =>
      rw [refs_mapAST_eq] at hmem
      rw [rename_mapAST_eq, rename_mapAST_eq, List.map_map]
      congr 1
      conv_rhs => rw [← List.map_id entries]
      refine List.map_congr_left fun p hp => ?_
      simp only [Function.comp_apply, id_eq]
      have h1 := RenameReferencedRelation_roundTrip frm tgt p.2 htgt fun hc =>
        hmem (List.mem_flatten.mpr
          ⟨p.2.ReferencedRelations, List.mem_map_of_mem _ hp, hc⟩)
      rw [h1]
  | conditionCase checks els =>
      cases els with
      | none =>
          rw [refs_conditionCase_eq] at hmem
          rw [List.mem_append] at hmem
          push_neg at hmem
          rw [rename_conditionCase_eq, rename_conditionCase_eq, List.map_map]
          dsimp only
          congr 1
          conv_rhs => rw [← List.map_id checks]
          refine List.map_congr_left fun p hp => ?_
          simp only [Function.comp_apply, id_eq]
          have h1 := RenameReferencedRelation_roundTrip frm tgt p.1 htgt fun hc =>
            hmem.1 (List.mem_flatten.mpr
              ⟨_, List.mem_map_of_mem _ hp, List.mem_append.mpr (Or.inl hc)⟩)
          have h2 := RenameReferencedRelation_roundTrip frm tgt p.2 htgt fun hc =>
            hmem.1 (List.mem_flatten.mpr
              ⟨_, List.mem_map_of_mem _ hp, List.mem_append.mpr (Or.inr hc)⟩)
          rw [h1, h2]
      | some e0 =>
          rw [refs_conditionCase_eq] at hmem
          dsimp only at hmem
          rw [List.mem_append] at hmem
          push_neg at hmem
          rw [rename_conditionCase_eq, rename_conditionCase_eq, List.map_map]
          dsimp only
          congr 1
          · conv_rhs => rw [← List.map_id checks]
            refine List.map_congr_left fun p hp => ?_
            simp only [Function.comp_apply, id_eq]
            have h1 := RenameReferencedRelation_roundTrip frm tgt p.1 htgt fun hc =>
              hmem.1 (List.mem_flatten.mpr
                ⟨_, List.mem_map_of_mem _ hp, List.mem_append.mpr (Or.inl hc)⟩)
            have h2 := RenameReferencedRelation_roundTrip frm tgt p.2 htgt fun hc =>
              hmem.1 (List.mem_flatten.mpr
                ⟨_, List.mem_map_of_mem _ hp, List.mem_append.mpr (Or.inr hc)⟩)
            rw [h1, h2]
          · rw [RenameReferencedRelation_roundTrip frm tgt e0 htgt hmem.2]
  | expressionCase e1 checks els =>
      cases els with
      | none =>
          rw [refs_expressionCase_eq] at hmem
          dsimp only at hmem
          rw [List.mem_append] at hmem
          push_neg at hmem
          obtain ⟨hm1, hm2⟩ := hmem
          rw [List.mem_append] at hm2
          push_neg at hm2
          rw [rename_expressionCase_eq, rename_expressionCase_eq, List.map_map]
          dsimp only
          congr 1
          · exact RenameReferencedRelation_roundTrip frm tgt e1 htgt hm1
          · conv_rhs => rw [← List.map_id checks]
            refine List.map_congr_left fun p hp => ?_
            simp only [Function.comp_apply, id_eq]
            have h1 := RenameReferencedRelation_roundTrip frm tgt p.1 htgt fun hc =>
              hm2.1 (List.mem_flatten.mpr
                ⟨_, List.mem_map_of_mem _ hp, List.mem_append.mpr (Or.inl hc)⟩)
            have h2 := RenameReferencedRelation_roundTrip frm tgt p.2 htgt fun hc =>
              hm2.1 (List.mem_flatten.mpr
                ⟨_, List.mem_map_of_mem _ hp, List.mem_append.mpr (Or.inr hc)⟩)
            rw [h1, h2]
      | some e0 =>
          rw [refs_expressionCase_eq] at hmem
          dsimp only at hmem
          rw [List.mem_append] at hmem
          push_neg at hmem
          obtain ⟨hm1, hm2⟩ := hmem
          rw [List.mem_append] at hm2
          push_neg at hm2
          rw [rename_expressionCase_eq, rename_expressionCase_eq, List.map_map]
          dsimp only
          congr 1
          · exact RenameReferencedRelation_roundTrip frm tgt e1 htgt hm1
          · conv_rhs => rw [← List.map_id checks]
            refine List.map_congr_left fun p hp => ?_
            simp only [Function.comp_apply, id_eq]
            have h1 := RenameReferencedRelation_roundTrip frm tgt p.1 htgt fun hc =>
              hm2.1 (List.mem_flatten.mpr
                ⟨_, List.mem_map_of_mem _ hp, List.mem_append.mpr (Or.inl hc)⟩)
            have h2 := RenameReferencedRelation_roundTrip frm tgt p.2 htgt fun hc =>
              hm2.1 (List.mem_flatten.mpr
                ⟨_, List.mem_map_of_mem _ hp, List.mem_append.mpr (Or.inr hc)⟩)
            rw [h1, h2]
          · rw [RenameReferencedRelation_roundTrip frm tgt e0 htgt hm2.2]
  | wildcard rel =>
      simp only [Expression.ReferencedRelations] at hmem
      by_cases h0 : rel = ""
      · subst h0
        simp only [Expression.RenameReferencedRelation]
        by_cases hf : "" = frm
        · rw [if_pos hf]
          simp only [Expression.RenameReferencedRelation]
          simp [← hf]
        · rw [if_neg hf]
          simp only [Expression.RenameReferencedRelation]
          rw [if_neg fun h => htgt h.symm]
      · rw [if_neg h0] at hmem
        have hne : tgt ≠ rel := by simpa using hmem
        simp only [Expression.RenameReferencedRelation]
        by_cases hf : rel = frm
        · rw [if_pos hf]
          simp only [Expression.RenameReferencedRelation]
          simp [hf]
        · rw [if_neg hf]
          simp only [Expression.RenameReferencedRelation]
          rw [if_neg fun h => hne h.symm]
  | rowValue rel col =>
      simp only [Expression.ReferencedRelations, List.mem_singleton] at hmem
      simp only [Expression.RenameReferencedRelation]
      by_cases hf : rel = frm
      · rw [if_pos hf]
        simp only [Expression.RenameReferencedRelation]
        simp [hf]
      · rw [if_neg hf]
        simp only [Expression.RenameReferencedRelation]
        rw [if_neg fun h => hmem h.symm]
  | rowMeta rel m =>
      simp only [Expression.ReferencedRelations, List.mem_singleton] at hmem
      simp only [Expression.RenameReferencedRelation]
      by_cases hf : rel = frm
      · rw [if_pos hf]
        simp only [Expression.RenameReferencedRelation]
        simp [hf]
      · rw [if_neg hf]
        simp only [Expression.RenameReferencedRelation]
        rw [if_neg fun h => hmem h.symm]
  | numericLiteral v => simp [Expression.RenameReferencedRelation]
  | floatLiteral v => simp [Expression.RenameReferencedRelation]
  | nullLiteral => simp [Expression.RenameReferencedRelation]
  | missing => simp [Expression.RenameReferencedRelation]
  | boolLiteral b => simp [Expression.RenameReferencedRelation]
  | stringLiteral s => simp [Expression.RenameReferencedRelation]
termination_by sizeOf e
decreasing_by
  all_goals
    subst_vars
    simp_wf
    try first
      | omega
      | (have hlt := List.sizeOf_lt_of_mem hx
         omega)
      | (have hlt := List.sizeOf_lt_of_mem hp
         have hfst : sizeOf p.1 < sizeOf p := by
           obtain ⟨p1, p2⟩ := p
           simp only [Prod.mk.sizeOf_spec]
           omega
         have hsnd : sizeOf p.2 < sizeOf p := by
           obtain ⟨p1, p2⟩ := p
           simp only [Prod.mk.sizeOf_spec]
           omega
         omega)

/-- C2 witness: renaming `a` to `b` and back on the row value `a:c`, which
does not reference `b`, restores the original expression. -/
theorem RenameReferencedRelation_roundTrip_witness :
    ((Expression.rowValue "a" "c").RenameReferencedRelation "a" "b").RenameReferencedRelation
        "b" "a" = Expression.rowValue "a" "c" :=
  RenameReferencedRelation_roundTrip "a" "b" (Expression.rowValue "a" "c")
    (by decide) (by simp [Expression.ReferencedRelations])

end SensorBee
